import Mathlib

/-!
Verification of the evalua core: a shallow embedding of the span/trace
runtime, the zod-validated step/workflow wrappers, the run orchestrator
(`createRuntime.run`), the cache-aware generation client
(`ProgrammableLLMClient.generate` with `stableStringify` key derivation and
`parseWithSchema` output parsing), and the evaluation harness (`runEval`).

Modelling conventions:
* JavaScript runtime values are modelled by `JsValue`; numbers are modelled
  as rationals (exact arithmetic stands in for IEEE doubles), and JS
  `undefined` is the distinguished value `JsValue.undefined`.
* Wall-clock timestamps (`Date.now()` / `new Date().toISOString()`) are
  modelled by a monotone logical clock that ticks once per emitted trace
  event.
* `randomUUID()` span-id freshness is modelled by a counter in the runtime
  state.
* Asynchronous, possibly-throwing computations are modelled as explicit
  state-passing functions returning `Except`.
-/

namespace Evalua

/-- JavaScript values as passed around the runtime: `undefined`, `null`,
booleans, numbers (modelled as rationals), strings, arrays, and objects
(ordered key/value field lists, as JS objects preserve insertion order). -/
inductive JsValue where
  | undefined
  | null
  | bool (b : Bool)
  | num (q : Rat)
  | str (s : String)
  | arr (elems : List JsValue)
  | obj (fields : List (String × JsValue))

/-- Models `JSON.stringify` on a string (quoting; escape sequences are not
modelled, the keys and strings in cache requests are plain text). -/
def jsonQuote (s : String) : String := "\"" ++ s ++ "\""

/-- Models the decimal rendering of a JS number inside `JSON.stringify`.
Only determinism of the rendering matters for the cache-key claims. -/
def jsonNumRepr (q : Rat) : String := toString q

/-- The key-only comparison used by `stableStringify`'s
`.sort(([a], [b]) => a.localeCompare(b))`: entries are ordered by their key
(modelled by the lexicographic order on strings). -/
def keyLE (a b : String × String) : Prop := a.1 ≤ b.1

instance : DecidableRel keyLE := fun a b => inferInstanceAs (Decidable (a.1 ≤ b.1))

instance : IsTotal (String × String) keyLE := ⟨fun a b => le_total a.1 b.1⟩

instance : IsTrans (String × String) keyLE := ⟨fun _ _ _ h1 h2 => le_trans h1 h2⟩

/-- Sorting of an object's serialized entries by key, modelling
`Object.entries(value).sort(([a], [b]) => a.localeCompare(b))`.  The source
sorts the raw entries and then serializes each value; since the comparator
looks only at keys and serialization preserves keys and entry order, sorting
the already-serialized entries is the same function. -/
def sortFields (l : List (String × String)) : List (String × String) :=
  List.insertionSort keyLE l

/-- Render one serialized object entry, `JSON.stringify(k) + ":" + v`. -/
def renderField (kv : String × String) : String := jsonQuote kv.1 ++ ":" ++ kv.2

mutual

/-- Models `stableStringify` from the LLM client: canonical serialization
with object keys sorted at every nesting level.  `JSON.stringify(undefined)`
is `undefined`, which the template literal coerces to the text
"undefined". -/
def stableStringify : JsValue → String
  | .undefined => "undefined"
  | .null => "null"
  | .bool b => if b then "true" else "false"
  | .num q => jsonNumRepr q
  | .str s => jsonQuote s
  | .arr xs => "[" ++ String.intercalate "," (serializeList xs) ++ "]"
  | .obj fs =>
      "\x7b" ++ String.intercalate "," ((sortFields (serializeFields fs)).map renderField) ++ "\x7d"

/-- Serialize each array element in order. -/
def serializeList : List JsValue → List String
  | [] => []
  | v :: rest => stableStringify v :: serializeList rest

/-- Serialize each object entry's value, keeping keys and entry order. -/
def serializeFields : List (String × JsValue) → List (String × String)
  | [] => []
  | (k, v) :: rest => (k, stableStringify v) :: serializeFields rest

end

/-- First value stored under a key in an ordered field list (JS property
lookup; field lists of actual JS objects have distinct keys). -/
def jsLookup : List (String × JsValue) → String → Option JsValue
  | [], _ => none
  | (k', v) :: rest, k => if k' = k then some v else jsLookup rest k

mutual

/-- Structural equality of JS values up to object key order at every
nesting level: scalars must be equal, arrays pointwise equivalent, and
objects must have the same number of fields with every field of the first
present in the second with an equivalent value. -/
def jsEquiv : JsValue → JsValue → Bool
  | .undefined, .undefined => true
  | .null, .null => true
  | .bool a, .bool b => a == b
  | .num a, .num b => a == b
  | .str a, .str b => a == b
  | .arr xs, .arr ys => jsEquivList xs ys
  | .obj f, .obj g => f.length == g.length && jsEquivFields f g
  | _, _ => false

/-- Pointwise `jsEquiv` on array elements. -/
def jsEquivList : List JsValue → List JsValue → Bool
  | [], [] => true
  | x :: xs, y :: ys => jsEquiv x y && jsEquivList xs ys
  | _, _ => false

/-- Every entry of the first field list is present in the second with an
equivalent value. -/
def jsEquivFields : List (String × JsValue) → List (String × JsValue) → Bool
  | [], _ => true
  | (k, v) :: rest, g =>
      (match jsLookup g k with
       | some w => jsEquiv v w
       | none => false) && jsEquivFields rest g

end

/-- Keys of a field list are pairwise distinct. -/
def keysNodup : List String → Bool
  | [] => true
  | k :: rest => !rest.contains k && keysNodup rest

mutual

/-- Well-formedness of a JS value: every object in it has distinct keys
(true of every value built by a JS program). -/
def nodupKeys : JsValue → Bool
  | .arr xs => nodupKeysList xs
  | .obj f => keysNodup (f.map Prod.fst) && nodupKeysFields f
  | _ => true

/-- `nodupKeys` on every array element. -/
def nodupKeysList : List JsValue → Bool
  | [] => true
  | v :: rest => nodupKeys v && nodupKeysList rest

/-- `nodupKeys` on every field value. -/
def nodupKeysFields : List (String × JsValue) → Bool
  | [] => true
  | (_, v) :: rest => nodupKeys v && nodupKeysFields rest

end

/-- Direction tag of a `validation_error` trace event. -/
inductive Direction where
  | input
  | output
deriving DecidableEq

/-- The text of a `Direction`, as interpolated into error messages. -/
def dirStr : Direction → String
  | .input => "input"
  | .output => "output"

/-- Trace events, mirroring the `TraceEvent` tagged union of the core
(restricted to the variants exercised by the claims).  `ts` is the logical
timestamp; `durationMs` fields are logical-clock differences. -/
inductive TraceEventM where
  | span_start (ts : Nat) (runId : Nat) (spanId : Nat) (parentSpanId : Option Nat) (name : String)
  | span_end (ts : Nat) (runId : Nat) (spanId : Nat) (parentSpanId : Option Nat) (name : String)
      (durationMs : Nat) (error : Option String)
  | llm_call (ts : Nat) (runId : Nat) (spanId : Nat) (model : String)
      (temperature : Option Rat) (maxTokens : Option Rat)
      (raw : Option String) (parsed : Option JsValue) (error : Option String)
  | validation_error (ts : Nat) (runId : Nat) (spanId : Nat) (direction : Direction)
      (issues : List String)
  | event (ts : Nat) (runId : Nat) (spanId : Nat) (name : String) (durationMs : Option Nat)

/-- The mutable world of one run: the trace sink's appended event stream, a
fresh-span-id counter (modelling `randomUUID`), a logical clock, the number
of `sink.close()` calls, the shared cache contents, and a count of backend
responder invocations. -/
structure RtState where
  events : List TraceEventM := []
  nextSpan : Nat := 0
  clock : Nat := 0
  closes : Nat := 0
  cache : List (String × JsValue) := []
  backendCalls : Nat := 0

/-- Append one trace event to the sink and tick the clock: `sink.write` of
an event carrying `new Date()` as its timestamp. -/
def emitEv (st : RtState) (mk : Nat → TraceEventM) : RtState :=
  { st with events := st.events ++ [mk st.clock], clock := st.clock + 1 }

/-- The execution context (`Ctx`): the active run id, active span id and its
parent span.  The trace handle, llm client, tool registry and cache of the
source `Ctx` are threaded separately (through `RtState` and function
parameters). -/
structure Ctx where
  runId : Nat
  spanId : Nat
  parentSpanId : Option Nat

/-- `RuntimeCtx.child` composed with `Trace.child`: allocate a fresh span
id, emit `span_start` with the current span as parent, and return a context
scoped to the new span.  Never fails. -/
def ctxChild (ctx : Ctx) (name : String) (st : RtState) : Ctx × RtState :=
  let sid := st.nextSpan
  let st := { st with nextSpan := sid + 1 }
  let st := emitEv st (fun ts => .span_start ts ctx.runId sid (some ctx.spanId) name)
  (⟨ctx.runId, sid, some ctx.spanId⟩, st)

/-- Outcome of `schema.safeParse(value)`: either the (possibly transformed)
data or a structured issue list (issues modelled as strings). -/
inductive SchemaResult where
  | success (data : JsValue)
  | failure (issues : List String)

/-- A zod schema, modelled by its `safeParse` behaviour. -/
abbrev Schema := JsValue → SchemaResult

/-- The runtime error taxonomy: `ValidationError` (structured issues plus a
message), `ToolError`, and plain `Error`s from collaborators.  `errMessage`
models reading `err.message`. -/
inductive RtError where
  | validation (issues : List String) (msg : String)
  | tool (msg : String)
  | generic (msg : String)
deriving DecidableEq

/-- `err?.message ?? String(err)` on a thrown runtime error. -/
def errMessage : RtError → String
  | .validation _ m => m
  | .tool m => m
  | .generic m => m

/-- `validateWithZod`: run `safeParse`; on failure emit a
`validation_error` event at the given span and throw a `ValidationError`
carrying the issue list with message `direction + " validation failed"`. -/
def validateWithZod (schema : Schema) (value : JsValue) (direction : Direction)
    (ctx : Ctx) (st : RtState) : RtState × Except RtError JsValue :=
  match schema value with
  | .success d => (st, .ok d)
  | .failure issues =>
      (emitEv st (fun ts => .validation_error ts ctx.runId ctx.spanId direction issues),
       .error (.validation issues (dirStr direction ++ " validation failed")))

/-- The body type of a step/workflow `run` function: a state-passing,
possibly-throwing computation over the runtime world. -/
abbrev StepBody := Ctx → JsValue → RtState → RtState × Except RtError JsValue

/-- A `Step`: name, input schema, output schema and execution function.
A `Workflow` has the identical shape and is modelled by the same
structure. -/
structure StepDef where
  name : String
  input : Schema
  output : Schema
  run : StepBody

/-- The wrapped `run` produced by `defineStep`: create a child span, capture
the start time, validate the input (before the try/catch — a failure here
propagates without a `span_end`), invoke the original body, validate the
output, and emit `span_end` (with the error message on the failure paths
inside the try/catch). -/
def stepWrappedRun (step : StepDef) : StepBody := fun ctx input st =>
  let p := ctxChild ctx step.name st
  let spanCtx := p.1
  let st := p.2
  let startedAt := st.clock
  match validateWithZod step.input input .input spanCtx st with
  | (st, .error e) => (st, .error e)
  | (st, .ok validatedInput) =>
    match step.run spanCtx validatedInput st with
    | (st, .error e) =>
        (emitEv st (fun ts => .span_end ts spanCtx.runId spanCtx.spanId spanCtx.parentSpanId
            step.name (st.clock - startedAt) (some (errMessage e))), .error e)
    | (st, .ok result) =>
      match validateWithZod step.output result .output spanCtx st with
      | (st, .error e) =>
          (emitEv st (fun ts => .span_end ts spanCtx.runId spanCtx.spanId spanCtx.parentSpanId
              step.name (st.clock - startedAt) (some (errMessage e))), .error e)
      | (st, .ok validatedOutput) =>
          (emitEv st (fun ts => .span_end ts spanCtx.runId spanCtx.spanId spanCtx.parentSpanId
              step.name (st.clock - startedAt) none), .ok validatedOutput)

/-- `defineStep`: replace the step's `run` by the wrapped run (which
captures the original `run`). -/
def defineStep (step : StepDef) : StepDef :=
  { step with run := stepWrappedRun step }

/-- The wrapped `run` produced by `defineWorkflow` — the source duplicates
the `defineStep` wrapper verbatim for workflows. -/
def workflowWrappedRun (workflow : StepDef) : StepBody := fun ctx input st =>
  let p := ctxChild ctx workflow.name st
  let spanCtx := p.1
  let st := p.2
  let startedAt := st.clock
  match validateWithZod workflow.input input .input spanCtx st with
  | (st, .error e) => (st, .error e)
  | (st, .ok validatedInput) =>
    match workflow.run spanCtx validatedInput st with
    | (st, .error e) =>
        (emitEv st (fun ts => .span_end ts spanCtx.runId spanCtx.spanId spanCtx.parentSpanId
            workflow.name (st.clock - startedAt) (some (errMessage e))), .error e)
    | (st, .ok result) =>
      match validateWithZod workflow.output result .output spanCtx st with
      | (st, .error e) =>
          (emitEv st (fun ts => .span_end ts spanCtx.runId spanCtx.spanId spanCtx.parentSpanId
              workflow.name (st.clock - startedAt) (some (errMessage e))), .error e)
      | (st, .ok validatedOutput) =>
          (emitEv st (fun ts => .span_end ts spanCtx.runId spanCtx.spanId spanCtx.parentSpanId
              workflow.name (st.clock - startedAt) none), .ok validatedOutput)

/-- `defineWorkflow`: same wrapping contract as `defineStep`. -/
def defineWorkflow (workflow : StepDef) : StepDef :=
  { workflow with run := workflowWrappedRun workflow }

/-- Run status of a `RunRecord`. -/
inductive RunStatus where
  | success
  | failure
deriving DecidableEq

/-- The externally visible summary of one orchestrator invocation.  The
optional `costUsd`/`tokens` fields of the source are never populated by the
orchestrator and are omitted. -/
structure RunRecord where
  runId : Nat
  target : String
  status : RunStatus
  startedAt : Nat
  endedAt : Nat
  durationMs : Nat
deriving DecidableEq

/-- The catch block of `createRuntime.run`: the local `status` variable is
set to `'failure'`, the root `span_end` is emitted with the error message,
the sink is closed, and the error is rethrown — no `RunRecord` is built on
this path. -/
def runtimeFail (target : StepDef) (runId rootSpanId startedAt : Nat) (st : RtState)
    (e : RtError) : RtState × Except RtError (JsValue × RunRecord) :=
  let st := emitEv st (fun ts => .span_end ts runId rootSpanId none target.name
      (st.clock - startedAt) (some (errMessage e)))
  let st := { st with closes := st.closes + 1 }
  (st, .error e)

/-- `createRuntime(...).run(target, input)`: allocate a run id and root
span, open the sink, emit the root `span_start`, build the context, then —
inside the try/catch — validate the input, invoke the target, validate the
output, emit the root `span_end`, build the success `RunRecord` and close
the sink.  Any thrown error lands in `runtimeFail`.  The run id is fixed at
0 (one modelled run per sink/event stream). -/
def runtimeRun (target : StepDef) (input : JsValue) (st0 : RtState) :
    RtState × Except RtError (JsValue × RunRecord) :=
  let runId := 0
  let rootSpanId := st0.nextSpan
  let st := { st0 with nextSpan := rootSpanId + 1 }
  let st := emitEv st (fun ts => .span_start ts runId rootSpanId none target.name)
  let ctx : Ctx := ⟨runId, rootSpanId, none⟩
  let startedAt := st.clock
  match validateWithZod target.input input .input ctx st with
  | (st, .error e) => runtimeFail target runId rootSpanId startedAt st e
  | (st, .ok validatedInput) =>
    match target.run ctx validatedInput st with
    | (st, .error e) => runtimeFail target runId rootSpanId startedAt st e
    | (st, .ok output) =>
      match validateWithZod target.output output .output ctx st with
      | (st, .error e) => runtimeFail target runId rootSpanId startedAt st e
      | (st, .ok validatedOutput) =>
          let st := emitEv st (fun ts => .span_end ts runId rootSpanId none target.name
              (st.clock - startedAt) none)
          let record : RunRecord :=
            ⟨runId, target.name, .success, startedAt, st.clock, st.clock - startedAt⟩
          let st := { st with closes := st.closes + 1 }
          (st, .ok (validatedOutput, record))

/-- JS truthiness: `undefined`, `null`, `false`, `0` and `""` are falsy;
every array and object is truthy. -/
def jsTruthy : JsValue → Bool
  | .undefined => false
  | .null => false
  | .bool b => b
  | .num q => !(q == 0)
  | .str s => !(s == "")
  | .arr _ => true
  | .obj _ => true

/-- The cache collaborator's `get`, as seen through `await maybeGet`: the
stored value, or `undefined` when the key is absent. -/
def cacheGet : List (String × JsValue) → String → JsValue
  | [], _ => .undefined
  | (k', v) :: rest, k => if k' = k then v else cacheGet rest k

/-- The cache collaborator's `set`: store a value under a key (keys stay
unique, as in a key-value store). -/
def cacheSet : List (String × JsValue) → String → JsValue → List (String × JsValue)
  | [], k, v => [(k, v)]
  | (k', v') :: rest, k, v =>
      if k' = k then (k, v) :: rest else (k', v') :: cacheSet rest k v

/-- The backend responder's reply: `{ raw, tokens?, costUsd? }`. -/
structure LLMResp where
  raw : String
  tokensIn : Option Nat := none
  tokensOut : Option Nat := none
  costUsd : Option Rat := none

/-- A supplied output schema together with the string the request hash uses
for it (`args.schema?.toString?.()`). -/
structure SchemaSpec where
  id : String
  parse : Schema

/-- The structured generation request (`LLMGenerateArgs`).  Messages and
tool descriptors are JS objects built by the caller, so they are modelled
as raw `JsValue`s (their key order is caller-controlled). -/
structure GenArgs where
  model : String
  messages : List JsValue
  schema : Option SchemaSpec := none
  temperature : Option Rat := none
  maxTokens : Option Rat := none
  tools : Option (List JsValue) := none

/-- An optional string as a JS value (`undefined` when absent). -/
def optStr : Option String → JsValue
  | some s => .str s
  | none => .undefined

/-- An optional number as a JS value (`undefined` when absent). -/
def optNum : Option Rat → JsValue
  | some q => .num q
  | none => .undefined

/-- An optional integer count as a JS value (`undefined` when absent). -/
def optNatNum : Option Nat → JsValue
  | some n => .num (n : Rat)
  | none => .undefined

/-- The object passed to `stableStringify` to derive the cache key, with the
source's field insertion order and defaults: `temperature ?? 0` and
`tools ?? []`. -/
def requestValue (args : GenArgs) : JsValue :=
  .obj [("provider", .str "programmable"),
        ("model", .str args.model),
        ("messages", .arr args.messages),
        ("schema", optStr (args.schema.map SchemaSpec.id)),
        ("temperature", .num (args.temperature.getD 0)),
        ("maxTokens", optNum args.maxTokens),
        ("tools", .arr (args.tools.getD []))]

/-- The derived cache key of a generation request. -/
def cacheKey (args : GenArgs) : String := stableStringify (requestValue args)

/-- `JSON.parse`, an external builtin, modelled abstractly: `none` when
parsing throws. -/
abbrev JsonParse := String → Option JsValue

/-- The candidate value `parseWithSchema` validates: the structured decode
of the raw text, falling back to the raw text itself when decoding
throws. -/
def jsonCandidate (jsonParse : JsonParse) (raw : String) : JsValue :=
  match jsonParse raw with
  | some v => v
  | none => .str raw

/-- `parseWithSchema`: decode the raw text (best effort), validate the
candidate against the schema, and throw a `ValidationError` with message
"LLM output failed schema validation" when validation fails. -/
def parseWithSchema (jsonParse : JsonParse) (schema : Schema) (raw : String) :
    Except RtError JsValue :=
  match schema (jsonCandidate jsonParse raw) with
  | .success d => .ok d
  | .failure issues => .error (.validation issues "LLM output failed schema validation")

/-- `args.schema ? parseWithSchema(args.schema, response.raw) : undefined`,
with the throw threaded through `Except`. -/
def parseStage (jsonParse : JsonParse) (args : GenArgs) (raw : String) :
    Except RtError (Option JsValue) :=
  match args.schema with
  | none => .ok none
  | some sp => (parseWithSchema jsonParse sp.parse raw).map some

/-- `response.tokens` as embedded in the result value. -/
def tokensValue (tokensIn tokensOut : Option Nat) : JsValue :=
  match tokensIn, tokensOut with
  | none, none => .undefined
  | i, o => .obj [("in", optNatNum i), ("out", optNatNum o)]

/-- The `LLMGenerateResult` object `{ raw, parsed, tokens, costUsd }` built
on a cache miss (and stored verbatim in the cache). -/
def mkResult (resp : LLMResp) (parsedOpt : Option JsValue) : JsValue :=
  .obj [("raw", .str resp.raw),
        ("parsed", (parsedOpt.getD .undefined)),
        ("tokens", tokensValue resp.tokensIn resp.tokensOut),
        ("costUsd", optNum resp.costUsd)]

/-- The backend responder collaborator: deterministic, possibly failing. -/
abbrev Responder := GenArgs → Except RtError LLMResp

/-- The catch/finally path of `generate`: emit an `llm_call` event carrying
only the model and error message, emit the `llm_call_complete` event from
the finally block, and rethrow. -/
def generateFail (ctx : Ctx) (args : GenArgs) (startedAt : Nat) (e : RtError)
    (st : RtState) : RtState × Except RtError JsValue :=
  let st := emitEv st (fun ts =>
      .llm_call ts ctx.runId ctx.spanId args.model none none none none (some (errMessage e)))
  let st := emitEv st (fun ts =>
      .event ts ctx.runId ctx.spanId "llm_call_complete" (some (st.clock - startedAt)))
  (st, .error e)

/-- The miss path of `generate`: invoke the backend responder, parse the
output if a schema was supplied, emit one `llm_call` event with raw and
parsed output, populate the cache, emit the finally-block
`llm_call_complete` event, and return the result. -/
def generateMiss (responder : Responder) (jsonParse : JsonParse) (ctx : Ctx)
    (args : GenArgs) (key : String) (st : RtState) : RtState × Except RtError JsValue :=
  let startedAt := st.clock
  let st := { st with backendCalls := st.backendCalls + 1 }
  match responder args with
  | .error e => generateFail ctx args startedAt e st
  | .ok resp =>
    match parseStage jsonParse args resp.raw with
    | .error e => generateFail ctx args startedAt e st
    | .ok parsedOpt =>
        let result := mkResult resp parsedOpt
        let st := emitEv st (fun ts =>
            .llm_call ts ctx.runId ctx.spanId args.model args.temperature args.maxTokens
              (some resp.raw) parsedOpt none)
        let st := { st with cache := cacheSet st.cache key result }
        let st := emitEv st (fun ts =>
            .event ts ctx.runId ctx.spanId "llm_call_complete" (some (st.clock - startedAt)))
        (st, .ok result)

/-- `ProgrammableLLMClient.generate`: derive the cache key, look it up, and
return the cached value verbatim when it is truthy — before the try block,
so a hit emits no trace event at all; otherwise take the miss path. -/
def generate (responder : Responder) (jsonParse : JsonParse) (ctx : Ctx)
    (args : GenArgs) (st : RtState) : RtState × Except RtError JsValue :=
  let key := cacheKey args
  let cached := cacheGet st.cache key
  if jsTruthy cached then (st, .ok cached)
  else generateMiss responder jsonParse ctx args key st

/-- A judge's `Score`: named numeric metrics plus optional notes and
artifacts. -/
structure Score where
  metrics : List (String × Rat)
  notes : Option String := none
  artifacts : Option JsValue := none

/-- A judge: a pure function of `{input, output, expected}` (the dummy
`trace: {}` argument is dropped). -/
abbrev Judge := JsValue → JsValue → Option JsValue → Score

/-- One labeled dataset case (tags/rubric/metadata are not consulted by
`runEval`). -/
structure EvalCase where
  id : String
  input : JsValue
  expected : Option JsValue := none

/-- Per-case result: metrics map plus notes/artifacts (absent when no judge
produced any). -/
structure EvalCaseResult where
  id : String
  metrics : List (String × Rat)
  notes : Option (List String) := none
  artifacts : Option (List JsValue) := none

/-- The evaluation run result. -/
structure EvalRunResult where
  name : String
  dataset : String
  cases : List EvalCaseResult
  aggregates : List (String × Rat)
  passed : Bool

/-- First value stored under a key in a record modelled as an ordered
association list (JS `record[k]`). -/
def lookupKV {α : Type} : List (String × α) → String → Option α
  | [], _ => none
  | (k', v) :: rest, k => if k' = k then some v else lookupKV rest k

/-- JS record assignment `metrics[k] = v`: replace in place when the key
exists (keys keep their insertion position), append otherwise. -/
def recordSet : List (String × Rat) → String → Rat → List (String × Rat)
  | [], k, v => [(k, v)]
  | (k', v') :: rest, k, v =>
      if k' = k then (k, v) :: rest else (k', v') :: recordSet rest k v

/-- `aggregates[k] = aggregates[k] ?? []; aggregates[k].push(v)`: append the
value to the key's running list, creating the list on first use. -/
def aggPush : List (String × List Rat) → String → Rat → List (String × List Rat)
  | [], k, v => [(k, [v])]
  | (k', vs) :: rest, k, v =>
      if k' = k then (k', vs ++ [v]) :: rest else (k', vs) :: aggPush rest k v

/-- Fold a flat list of `(metric, value)` pairs into the running per-metric
lists. -/
def aggFold (ag : List (String × List Rat)) (pairs : List (String × Rat)) :
    List (String × List Rat) :=
  pairs.foldl (fun a kv => aggPush a kv.1 kv.2) ag

/-- `values.reduce((a, b) => a + b, 0) / values.length` for every metric:
the per-metric arithmetic mean. -/
def summarize (ag : List (String × List Rat)) : List (String × Rat) :=
  ag.map (fun kv => (kv.1, kv.2.sum / (kv.2.length : Rat)))

/-- The pass check: every threshold metric must have a defined aggregate
that reaches its threshold (`achieved !== undefined && achieved >=
threshold`). -/
def checkThresholds (thresholds : List (String × Rat)) (aggregates : List (String × Rat)) :
    Bool :=
  thresholds.all (fun kv =>
    match lookupKV aggregates kv.1 with
    | some achieved => decide (kv.2 ≤ achieved)
    | none => false)

/-- Accumulator of the per-case judge loop: the case's metric record, its
collected notes and artifacts, and the running cross-case per-metric
lists. -/
structure JAcc where
  metrics : List (String × Rat)
  notes : List String
  artifacts : List JsValue
  agg : List (String × List Rat)

/-- One iteration of the judge loop: score the case, then for every metric
entry push the value onto the running per-metric list and write it into the
case's metric record (later judges overwrite earlier ones on the same
name); collect notes and artifacts when present. -/
def judgeStep (input output : JsValue) (expected : Option JsValue) (acc : JAcc)
    (j : Judge) : JAcc :=
  let score := j input output expected
  let p := score.metrics.foldl
      (fun (p : List (String × Rat) × List (String × List Rat)) kv =>
        (recordSet p.1 kv.1 kv.2, aggPush p.2 kv.1 kv.2))
      (acc.metrics, acc.agg)
  { metrics := p.1,
    notes := acc.notes ++ score.notes.toList,
    artifacts := acc.artifacts ++ score.artifacts.toList,
    agg := p.2 }

/-- One iteration of the case loop: run the target through the runtime,
apply every judge in order, and record the case result. -/
def runCase (run : JsValue → JsValue) (judges : List Judge)
    (ag : List (String × List Rat)) (c : EvalCase) :
    EvalCaseResult × List (String × List Rat) :=
  let output := run c.input
  let acc := judges.foldl (judgeStep c.input output c.expected) ⟨[], [], [], ag⟩
  (⟨c.id, acc.metrics,
    if acc.notes.isEmpty then none else some acc.notes,
    if acc.artifacts.isEmpty then none else some acc.artifacts⟩,
   acc.agg)

/-- Fold step of the case loop, threading the running per-metric lists. -/
def casesFold (run : JsValue → JsValue) (judges : List Judge)
    (st : List EvalCaseResult × List (String × List Rat)) (c : EvalCase) :
    List EvalCaseResult × List (String × List Rat) :=
  let p := runCase run judges st.2 c
  (st.1 ++ [p.1], p.2)

/-- The whole case loop of `runEval`, strictly in dataset order. -/
def runCases (run : JsValue → JsValue) (judges : List Judge) (cases : List EvalCase) :
    List EvalCaseResult × List (String × List Rat) :=
  cases.foldl (casesFold run judges) ([], [])

/-- `runEval`: execute every case through the runtime (`run` models
`runtime.run`'s output projection; a case failure would propagate out of the
harness — completed runs are modelled), score with every judge, aggregate
per-metric means, and compare against thresholds. -/
def runEval (name dsName : String) (cases : List EvalCase) (run : JsValue → JsValue)
    (judges : List Judge) (thresholds : List (String × Rat)) : EvalRunResult :=
  let cr := runCases run judges cases
  { name := name,
    dataset := dsName,
    cases := cr.1,
    aggregates := summarize cr.2,
    passed := checkThresholds thresholds (summarize cr.2) }

/-- All values recorded for one metric name, in recording order. -/
def valuesFor (k : String) (pairs : List (String × Rat)) : List Rat :=
  pairs.filterMap (fun kv => if kv.1 = k then some kv.2 else none)

/-- The `(metric, value)` pairs one case contributes, in judge order. -/
def casePairs (run : JsValue → JsValue) (judges : List Judge) (c : EvalCase) :
    List (String × Rat) :=
  judges.flatMap (fun j => (j c.input (run c.input) c.expected).metrics)

/-- The `(metric, value)` pairs of a whole evaluation run, in recording
order. -/
def allPairs (run : JsValue → JsValue) (judges : List Judge) (cases : List EvalCase) :
    List (String × Rat) :=
  cases.flatMap (casePairs run judges)

/-- All values recorded for one metric across a whole run: cases not
producing the metric contribute nothing. -/
def recordedValues (run : JsValue → JsValue) (judges : List Judge)
    (cases : List EvalCase) (m : String) : List Rat :=
  valuesFor m (allPairs run judges cases)

/-- Is this a `span_start` for the given span id? -/
def isSpanStartFor (sid : Nat) : TraceEventM → Bool
  | .span_start _ _ spanId _ _ => spanId == sid
  | _ => false

/-- Is this a `span_end` for the given span id? -/
def isSpanEndFor (sid : Nat) : TraceEventM → Bool
  | .span_end _ _ spanId _ _ _ _ => spanId == sid
  | _ => false

/-- The error field of a `span_end` event. -/
def spanEndError : TraceEventM → Option String
  | .span_end _ _ _ _ _ _ e => e
  | _ => none

/-- Is this an `llm_call` (generation) event? -/
def isLlmCall : TraceEventM → Bool
  | .llm_call _ _ _ _ _ _ _ _ _ => true
  | _ => false

/-- A schema accepting every value unchanged (`z.any()`-like). -/
def idSchema : Schema := fun v => .success v

/-- A schema requiring a non-empty string (`z.string().min(1)`-like). -/
def nonEmptyStringSchema : Schema := fun v =>
  match v with
  | .str s => if s = "" then .failure ["expected a non-empty string"] else .success (.str s)
  | _ => .failure ["expected a non-empty string"]

/-- An unwrapped demo step whose input schema requires a non-empty
string. -/
def greetRaw : StepDef :=
  { name := "greet", input := nonEmptyStringSchema, output := idSchema,
    run := fun _ _ st => (st, .ok .null) }

/-- A parent context sitting at span 0 of run 0. -/
def demoCtx : Ctx := ⟨0, 0, none⟩

/-- A runtime state in which span 0 is already taken by the parent. -/
def demoSt : RtState := { nextSpan := 1 }

/-- C1: the claim states that every termination path of a wrapped step emits
exactly one `span_end` matching the created child `span_start` — but on the
input-validation failure path the code emits the child `span_start` and no
`span_end` at all: `validateWithZod` runs before the wrapper's try/catch,
so the thrown `ValidationError` bypasses both `span_end` emissions.
Demonstrated on a step requiring a non-empty string, invoked with `""`:
the child span 1 gets one `span_start`, zero `span_end`s. -/
theorem step_input_invalid_leaves_span_open :
    (((defineStep greetRaw).run demoCtx (.str "") demoSt).1.events.filter
        (isSpanStartFor 1)).length = 1
    ∧ (((defineStep greetRaw).run demoCtx (.str "") demoSt).1.events.filter
        (isSpanEndFor 1)).length = 0
    ∧ ((defineStep greetRaw).run demoCtx (.str "") demoSt).2
        = .error (.validation ["expected a non-empty string"] "input validation failed") :=
  ⟨rfl, rfl, rfl⟩

/-- C5: when a step's (or workflow's) input fails its declared schema, the
call fails with a `ValidationError` carrying the issue list and message
"input validation failed", the only events emitted beyond the child
`span_start` are exactly one `validation_error` with direction `input`, and
the wrapped body is never invoked (the outcome is the same for every
body). -/
theorem step_input_invalid_skips_body (s : StepDef) (ctx : Ctx) (input : JsValue)
    (st : RtState) (issues : List String)
    (h : s.input input = .failure issues) :
    ((defineStep s).run ctx input st).2
        = .error (.validation issues "input validation failed")
    ∧ ((defineStep s).run ctx input st).1.events
        = st.events ++
          [.span_start st.clock ctx.runId st.nextSpan (some ctx.spanId) s.name,
           .validation_error (st.clock + 1) ctx.runId st.nextSpan .input issues]
    ∧ (∀ body : StepBody,
        (defineStep { s with run := body }).run ctx input st
          = (defineStep s).run ctx input st)
    ∧ ((defineWorkflow s).run ctx input st).2
        = .error (.validation issues "input validation failed") := by
  refine ⟨?_, ?_, fun body => ?_, ?_⟩ <;>
    simp [defineStep, defineWorkflow, stepWrappedRun, workflowWrappedRun, ctxChild, emitEv,
      validateWithZod, dirStr, h]

/-- Witness for C5 at the concrete step `greetRaw` invoked with `""`. -/
theorem step_input_invalid_skips_body_witness :
    greetRaw.input (.str "") = .failure ["expected a non-empty string"]
    ∧ ((defineStep greetRaw).run demoCtx (.str "") demoSt).2
        = .error (.validation ["expected a non-empty string"] "input validation failed") :=
  ⟨rfl, (step_input_invalid_skips_body greetRaw demoCtx (.str "") demoSt
      ["expected a non-empty string"] rfl).1⟩

/-- An unwrapped step whose body always throws `Error("boom")`. -/
def rawBoom : StepDef :=
  { name := "boom", input := idSchema, output := idSchema,
    run := fun _ _ st => (st, .error (.generic "boom")) }

/-- C2 counterexample: a run whose wrapped step throws mid-execution ends in
the orchestrator's catch block, which rethrows the error — the call rejects
and no `RunRecord` (of any status) is produced, contrary to the claim that a
failing run "produces a RunRecord with status failure": the catch block sets
its local status variable to failure but never constructs a record. -/
theorem runtime_failure_returns_no_record :
    (runtimeRun (defineStep rawBoom) .null {}).2 = .error (.generic "boom")
    ∧ ((runtimeRun (defineStep rawBoom) .null {}).2.toOption = none) :=
  ⟨rfl, rfl⟩

/-- C2 amended: on any failure anywhere in the call chain, the orchestrator
catches once, emits exactly one root `span_end` and it carries the error
message, closes the sink exactly once, and rethrows the original error
unchanged — but returns no `RunRecord`.  The target is assumed tame: its
`run`, invoked on a state whose span counter is past the root span, only
appends events, forges no root `span_end`, and does not close the sink. -/
theorem runtime_failure_closes_root_and_rethrows (target : StepDef) (input : JsValue)
    (st0 : RtState) (e : RtError)
    (hev : st0.events = [])
    (htame : ∀ ctx v st, st0.nextSpan < st.nextSpan →
        ∃ ds, (target.run ctx v st).1.events = st.events ++ ds
          ∧ ds.filter (isSpanEndFor st0.nextSpan) = []
          ∧ (target.run ctx v st).1.closes = st.closes)
    (herr : (runtimeRun target input st0).2 = .error e) :
    ((runtimeRun target input st0).1.events.filter (isSpanEndFor st0.nextSpan)).length = 1
    ∧ (∀ ev ∈ (runtimeRun target input st0).1.events.filter (isSpanEndFor st0.nextSpan),
        spanEndError ev = some (errMessage e))
    ∧ (runtimeRun target input st0).1.closes = st0.closes + 1 := by
  cases hsch : target.input input with
  | failure issues =>
      simp only [runtimeRun, validateWithZod, hsch, runtimeFail, emitEv] at herr ⊢
      simp only [Except.error.injEq] at herr
      subst herr
      simp [hev, isSpanEndFor, spanEndError, List.filter_append]
  | success d =>
      simp only [runtimeRun, validateWithZod, hsch] at herr ⊢
      set st1 := emitEv { st0 with nextSpan := st0.nextSpan + 1 }
          (fun ts => .span_start ts 0 st0.nextSpan none target.name) with hst1
      have h1ev : st1.events = [TraceEventM.span_start st0.clock 0 st0.nextSpan none target.name] := by
        simp [hst1, emitEv, hev]
      have h1ns : st0.nextSpan < st1.nextSpan := by
        simp [hst1, emitEv]
      have h1cl : st1.closes = st0.closes := by
        simp [hst1, emitEv]
      obtain ⟨ds, hds, hdsf, hcl⟩ := htame ⟨0, st0.nextSpan, none⟩ d st1 h1ns
      rcases hrun : target.run ⟨0, st0.nextSpan, none⟩ d st1 with ⟨stB, resB⟩
      rw [hrun] at hds hcl herr
      have hds2 : stB.events = st1.events ++ ds := hds
      have hcl2 : stB.closes = st1.closes := hcl
      cases resB with
      | error eb =>
          simp only [runtimeFail, emitEv, Except.error.injEq] at herr ⊢
          subst herr
          simp [hds2, h1ev, hdsf, hcl2, h1cl, isSpanEndFor, spanEndError, List.filter_append]
      | ok out =>
          cases hout : target.output out with
          | failure issues2 =>
              simp only [validateWithZod, hout, runtimeFail, emitEv, Except.error.injEq]
                at herr ⊢
              subst herr
              simp [hds2, h1ev, hdsf, hcl2, h1cl, isSpanEndFor, spanEndError,
                List.filter_append]
          | success d2 =>
              simp only [validateWithZod, hout] at herr
              simp at herr

/-- Witness for the amended C2 at a concrete always-throwing target. -/
theorem runtime_failure_closes_root_witness :
    (runtimeRun rawBoom .null {}).2 = .error (.generic "boom")
    ∧ ((runtimeRun rawBoom .null {}).1.events.filter (isSpanEndFor 0)).length = 1
    ∧ (runtimeRun rawBoom .null {}).1.closes = 1 := by
  have h := runtime_failure_closes_root_and_rethrows rawBoom .null {} (.generic "boom") rfl
      (fun ctx v st _ => ⟨[], by simp [rawBoom], by simp, rfl⟩) rfl
  exact ⟨rfl, h.1, h.2.2⟩

/-- A `set` followed by a `get` of the same key yields the stored value. -/
theorem cacheGet_cacheSet (c : List (String × JsValue)) (k : String) (v : JsValue) :
    cacheGet (cacheSet c k v) k = v := by
  induction c with
  | nil => simp [cacheSet, cacheGet]
  | cons kv rest ih =>
      obtain ⟨k', v'⟩ := kv
      by_cases h : k' = k <;> simp [cacheSet, cacheGet, h, ih]

/-- C9: when the cache holds a falsy value (JS `undefined`, `null`, `false`,
`0`, `""` — or the key is absent) under the derived key, `generate` treats
it as a miss: the guard is plain truthiness (`if (cached)`), so the backend
responder is invoked. -/
theorem generate_falsy_cached_is_miss (responder : Responder) (jsonParse : JsonParse)
    (ctx : Ctx) (args : GenArgs) (st0 : RtState) (v : JsValue)
    (hstored : cacheGet st0.cache (cacheKey args) = v) (hfalsy : jsTruthy v = false) :
    generate responder jsonParse ctx args st0
      = generateMiss responder jsonParse ctx args (cacheKey args) st0
    ∧ (generate responder jsonParse ctx args st0).1.backendCalls
        = st0.backendCalls + 1 := by
  have h1 : generate responder jsonParse ctx args st0
      = generateMiss responder jsonParse ctx args (cacheKey args) st0 := by
    simp [generate, hstored, hfalsy]
  refine ⟨h1, ?_⟩
  rw [h1]
  rcases hr : responder args with e | resp
  · simp [generateMiss, hr, generateFail, emitEv]
  · rcases hp : parseStage jsonParse args resp.raw with e2 | p
    · simp [generateMiss, hr, hp, generateFail, emitEv]
    · simp [generateMiss, hr, hp, emitEv]

/-- A backend responder scripted to answer "hi". -/
def echoResponder : Responder := fun _ => .ok { raw := "hi" }

/-- A `JSON.parse` model on which decoding always throws. -/
def noParse : JsonParse := fun _ => none

/-- A minimal generation request without schema, temperature or tools. -/
def demoArgs : GenArgs := { model := "gpt", messages := [] }

/-- Witness for C9: a cached empty string under the derived key is treated
as a miss and the backend is invoked. -/
theorem generate_falsy_cached_is_miss_witness :
    cacheGet [(cacheKey demoArgs, .str "")] (cacheKey demoArgs) = .str ""
    ∧ jsTruthy (.str "") = false
    ∧ (generate echoResponder noParse demoCtx demoArgs
        { cache := [(cacheKey demoArgs, .str "")] }).1.backendCalls = 1 := by
  have hc : cacheGet [(cacheKey demoArgs, .str "")] (cacheKey demoArgs) = .str "" := by
    simp [cacheGet]
  have h := generate_falsy_cached_is_miss echoResponder noParse demoCtx demoArgs
      { cache := [(cacheKey demoArgs, .str "")] } (.str "") hc rfl
  exact ⟨hc, rfl, h.2⟩

/-- C3: with a cache configured, a successful miss invokes the backend once,
emits exactly one new `llm_call` event, populates the cache under the
derived key before returning, and returns the built result; re-issuing the
same logical request is then a pure hit: the state is untouched (no backend
call, no trace event, no cache write) and the cached result is returned
verbatim.  Across the two calls the backend collaborator runs exactly
once. -/
theorem generate_cache_hit_and_single_backend (responder : Responder)
    (jsonParse : JsonParse) (ctx : Ctx) (args : GenArgs) (st0 : RtState)
    (resp : LLMResp) (parsedOpt : Option JsValue)
    (hmiss : jsTruthy (cacheGet st0.cache (cacheKey args)) = false)
    (hresp : responder args = .ok resp)
    (hparse : parseStage jsonParse args resp.raw = .ok parsedOpt) :
    (generate responder jsonParse ctx args st0).2 = .ok (mkResult resp parsedOpt)
    ∧ (generate responder jsonParse ctx args st0).1.backendCalls = st0.backendCalls + 1
    ∧ cacheGet (generate responder jsonParse ctx args st0).1.cache (cacheKey args)
        = mkResult resp parsedOpt
    ∧ generate responder jsonParse ctx args (generate responder jsonParse ctx args st0).1
        = ((generate responder jsonParse ctx args st0).1, .ok (mkResult resp parsedOpt))
    ∧ ((generate responder jsonParse ctx args st0).1.events.filter isLlmCall).length
        = (st0.events.filter isLlmCall).length + 1 := by
  have hgen : generate responder jsonParse ctx args st0
      = generateMiss responder jsonParse ctx args (cacheKey args) st0 := by
    simp [generate, hmiss]
  rw [hgen]
  have hstate : (generateMiss responder jsonParse ctx args (cacheKey args) st0).1.cache
      = cacheSet st0.cache (cacheKey args) (mkResult resp parsedOpt) := by
    simp [generateMiss, hresp, hparse, emitEv]
  have hcget : cacheGet
      (generateMiss responder jsonParse ctx args (cacheKey args) st0).1.cache
      (cacheKey args) = mkResult resp parsedOpt := by
    rw [hstate]; exact cacheGet_cacheSet _ _ _
  refine ⟨?_, ?_, hcget, ?_, ?_⟩
  · simp [generateMiss, hresp, hparse, emitEv]
  · simp [generateMiss, hresp, hparse, emitEv]
  · simp [generate, hcget, mkResult, jsTruthy]
  · simp [generateMiss, hresp, hparse, emitEv, isLlmCall, List.filter_append]

/-- Witness for C3 with an empty cache and the scripted responder. -/
theorem generate_cache_hit_witness :
    jsTruthy (cacheGet ({} : RtState).cache (cacheKey demoArgs)) = false
    ∧ echoResponder demoArgs = .ok { raw := "hi" }
    ∧ parseStage noParse demoArgs "hi" = .ok none
    ∧ (generate echoResponder noParse demoCtx demoArgs {}).1.backendCalls = 1
    ∧ generate echoResponder noParse demoCtx demoArgs
        (generate echoResponder noParse demoCtx demoArgs {}).1
        = ((generate echoResponder noParse demoCtx demoArgs {}).1,
           .ok (mkResult { raw := "hi" } none)) := by
  have h := generate_cache_hit_and_single_backend echoResponder noParse demoCtx demoArgs {}
      { raw := "hi" } none rfl rfl rfl
  exact ⟨rfl, rfl, rfl, h.2.1, h.2.2.2.1⟩

/-- C8: on a miss with an output schema supplied, the raw text is decoded
(structured decode first, raw text as fallback candidate) and validated;
when validation fails, `generate` fails with the `ValidationError` from
`parseWithSchema` instead of returning the unparsed text. -/
theorem generate_output_schema_failure (responder : Responder) (jsonParse : JsonParse)
    (ctx : Ctx) (args : GenArgs) (st0 : RtState) (resp : LLMResp) (sp : SchemaSpec)
    (issues : List String)
    (hmiss : jsTruthy (cacheGet st0.cache (cacheKey args)) = false)
    (hresp : responder args = .ok resp)
    (hschema : args.schema = some sp)
    (hfail : sp.parse (jsonCandidate jsonParse resp.raw) = .failure issues) :
    (generate responder jsonParse ctx args st0).2
        = .error (.validation issues "LLM output failed schema validation")
    ∧ (∀ j, jsonParse resp.raw = some j → jsonCandidate jsonParse resp.raw = j)
    ∧ (jsonParse resp.raw = none → jsonCandidate jsonParse resp.raw = .str resp.raw) := by
  refine ⟨?_, ?_, ?_⟩
  · have hp : parseStage jsonParse args resp.raw
        = .error (.validation issues "LLM output failed schema validation") := by
      simp [parseStage, hschema, parseWithSchema, hfail, Except.map]
    simp [generate, hmiss, generateMiss, hresp, hp, generateFail, emitEv]
  · intro j hj; simp [jsonCandidate, hj]
  · intro hj; simp [jsonCandidate, hj]

/-- An output schema that rejects every candidate. -/
def rejectSpec : SchemaSpec := ⟨"rejectAll", fun _ => .failure ["bad shape"]⟩

/-- A request carrying the rejecting output schema. -/
def schemaArgs : GenArgs := { model := "gpt", messages := [], schema := some rejectSpec }

/-- Witness for C8: the scripted responder's "hi" fails the rejecting
schema and the call fails with the `ValidationError`. -/
theorem generate_output_schema_failure_witness :
    schemaArgs.schema = some rejectSpec
    ∧ rejectSpec.parse (jsonCandidate noParse "hi") = .failure ["bad shape"]
    ∧ (generate echoResponder noParse demoCtx schemaArgs {}).2
        = .error (.validation ["bad shape"] "LLM output failed schema validation") := by
  have h := generate_output_schema_failure echoResponder noParse demoCtx schemaArgs {}
      { raw := "hi" } rejectSpec ["bad shape"] rfl rfl rfl rfl
  exact ⟨rfl, rfl, h.1⟩

/-- The pass check succeeds exactly when every threshold metric has a
defined aggregate reaching its threshold. -/
theorem checkThresholds_iff (th agg : List (String × Rat)) :
    checkThresholds th agg = true
      ↔ ∀ kv ∈ th, ∃ a, lookupKV agg kv.1 = some a ∧ kv.2 ≤ a := by
  unfold checkThresholds
  rw [List.all_eq_true]
  constructor
  · intro h kv hkv
    have hx := h kv hkv
    rcases hl : lookupKV agg kv.1 with _ | a
    · rw [hl] at hx; simp at hx
    · rw [hl] at hx; simp at hx; exact ⟨a, rfl, hx⟩
  · intro h kv hkv
    obtain ⟨a, hl, hle⟩ := h kv hkv
    rw [hl]
    simpa using hle

/-- C6: `passed` is true iff every metric name in the threshold map has a
defined aggregate that is at least its threshold; a threshold metric with no
aggregate at all (no defined lookup) fails the run. -/
theorem runEval_passed_iff (nm ds : String) (cs : List EvalCase)
    (run : JsValue → JsValue) (judges : List Judge) (thresholds : List (String × Rat)) :
    (runEval nm ds cs run judges thresholds).passed = true
      ↔ ∀ kv ∈ thresholds,
          ∃ a, lookupKV (runEval nm ds cs run judges thresholds).aggregates kv.1 = some a
            ∧ kv.2 ≤ a := by
  exact checkThresholds_iff thresholds (summarize (runCases run judges cs).2)

/-- The inner metric-entry fold tracks `aggFold` on its aggregate
component. -/
theorem metricsFold_snd (entries : List (String × Rat))
    (m : List (String × Rat)) (ag : List (String × List Rat)) :
    (entries.foldl (fun (p : List (String × Rat) × List (String × List Rat)) kv =>
        (recordSet p.1 kv.1 kv.2, aggPush p.2 kv.1 kv.2)) (m, ag)).2
      = aggFold ag entries := by
  induction entries generalizing m ag with
  | nil => rfl
  | cons kv rest ih =>
      simp only [List.foldl_cons, aggFold] at ih ⊢
      exact ih _ _

/-- One judge's effect on the running per-metric lists. -/
theorem judgeStep_agg (input output : JsValue) (expected : Option JsValue) (acc : JAcc)
    (j : Judge) :
    (judgeStep input output expected acc j).agg
      = aggFold acc.agg (j input output expected).metrics := by
  simp [judgeStep, metricsFold_snd]

/-- The judge loop appends every judge's metric entries in order. -/
theorem judgesFold_agg (input output : JsValue) (expected : Option JsValue)
    (judges : List Judge) (acc : JAcc) :
    (judges.foldl (judgeStep input output expected) acc).agg
      = aggFold acc.agg (judges.flatMap (fun j => (j input output expected).metrics)) := by
  induction judges generalizing acc with
  | nil => simp [aggFold]
  | cons j rest ih =>
      simp only [List.foldl_cons, List.flatMap_cons]
      rw [ih, judgeStep_agg]
      simp [aggFold, List.foldl_append]

/-- One case's effect on the running per-metric lists. -/
theorem runCase_agg (run : JsValue → JsValue) (judges : List Judge)
    (ag : List (String × List Rat)) (c : EvalCase) :
    (runCase run judges ag c).2 = aggFold ag (casePairs run judges c) := by
  simp [runCase, casePairs, judgesFold_agg]

/-- The case loop accumulates exactly the flat list of recorded
`(metric, value)` pairs. -/
theorem runCases_agg (run : JsValue → JsValue) (judges : List Judge) (cs : List EvalCase) :
    (runCases run judges cs).2 = aggFold [] (allPairs run judges cs) := by
  suffices h : ∀ init : List EvalCaseResult × List (String × List Rat),
      (cs.foldl (casesFold run judges) init).2 = aggFold init.2 (allPairs run judges cs) by
    exact h ([], [])
  induction cs with
  | nil => intro init; simp [allPairs, aggFold]
  | cons c rest ih =>
      intro init
      simp only [List.foldl_cons, allPairs, List.flatMap_cons]
      rw [ih]
      simp [casesFold, runCase_agg, aggFold, List.foldl_append, allPairs]

/-- Lookup after an `aggPush`. -/
theorem lookupKV_aggPush (ag : List (String × List Rat)) (k : String) (v : Rat)
    (k' : String) :
    lookupKV (aggPush ag k v) k'
      = if k' = k then some (((lookupKV ag k).getD []) ++ [v]) else lookupKV ag k' := by
  induction ag with
  | nil =>
      by_cases h : k' = k
      · subst h; simp [aggPush, lookupKV]
      · simp [aggPush, lookupKV, h, eq_false (Ne.symm h)]
  | cons kv rest ih =>
      obtain ⟨k0, vs⟩ := kv
      by_cases h0 : k0 = k
      · subst h0
        by_cases h1 : k' = k0
        · subst h1; simp [aggPush, lookupKV]
        · simp [aggPush, lookupKV, h1, eq_false (Ne.symm h1)]
      · by_cases h1 : k0 = k'
        · subst h1
          simp [aggPush, lookupKV, h0, eq_false (Ne.symm h0)]
        · simp [aggPush, lookupKV, h0, h1, ih]

/-- Lookup after folding a flat pair list into the running per-metric
lists: the key's list grows by exactly the values recorded for it. -/
theorem lookupKV_aggFold (pairs : List (String × Rat)) :
    ∀ (ag : List (String × List Rat)) (k : String),
    lookupKV (aggFold ag pairs) k
      = match lookupKV ag k with
        | some vs => some (vs ++ valuesFor k pairs)
        | none => if valuesFor k pairs = [] then none else some (valuesFor k pairs) := by
  induction pairs with
  | nil =>
      intro ag k
      cases hl : lookupKV ag k <;> simp [aggFold, valuesFor, hl]
  | cons kv rest ih =>
      intro ag k
      obtain ⟨k0, v0⟩ := kv
      have hstep : aggFold ag ((k0, v0) :: rest) = aggFold (aggPush ag k0 v0) rest := rfl
      rw [hstep, ih, lookupKV_aggPush]
      by_cases h : k = k0
      · subst h
        cases hl : lookupKV ag k <;>
          simp [hl, valuesFor, List.filterMap_cons]
      · have hfa : valuesFor k ((k0, v0) :: rest) = valuesFor k rest := by
          simp [valuesFor, List.filterMap_cons, Ne.symm h]
        cases hl : lookupKV ag k <;> simp [hl, h, hfa]

/-- Lookup in the aggregate summary is the mean of the recorded list. -/
theorem lookupKV_summarize (ag : List (String × List Rat)) (k : String) :
    lookupKV (summarize ag) k
      = (lookupKV ag k).map (fun vs => vs.sum / (vs.length : Rat)) := by
  induction ag with
  | nil => simp [summarize, lookupKV]
  | cons kv rest ih =>
      obtain ⟨k0, vs⟩ := kv
      by_cases h : k0 = k
      · subst h; simp [summarize, lookupKV]
      · simp [summarize, lookupKV, h]
        simpa [summarize] using ih

/-- C7: every reported aggregate is the arithmetic mean of all per-case
values recorded for that metric name (cases not producing the metric
contribute nothing — they are not treated as zero). -/
theorem runEval_aggregate_is_mean (nm ds : String) (cs : List EvalCase)
    (run : JsValue → JsValue) (judges : List Judge) (thresholds : List (String × Rat))
    (m : String) (a : Rat)
    (h : lookupKV (runEval nm ds cs run judges thresholds).aggregates m = some a) :
    recordedValues run judges cs m ≠ []
    ∧ a = (recordedValues run judges cs m).sum
        / ((recordedValues run judges cs m).length : Rat) := by
  have hagg : (runEval nm ds cs run judges thresholds).aggregates
      = summarize (runCases run judges cs).2 := rfl
  rw [hagg, lookupKV_summarize, runCases_agg, lookupKV_aggFold] at h
  simp only [lookupKV] at h
  by_cases hv : valuesFor m (allPairs run judges cs) = []
  · simp [hv] at h
  · simp [hv] at h
    exact ⟨by simpa [recordedValues] using hv, by simp [recordedValues, ← h]⟩

/-- The spec's two-case scenario judge: metric `key_terms` scores 1/2 on the
case with an expected value and 1 on the case without. -/
def keyTermsJudge : Judge := fun _ _ expected =>
  { metrics := [("key_terms", match expected with | some _ => 1/2 | none => 1)] }

/-- First scenario case (scores 1/2). -/
def caseA : EvalCase := { id := "renewable-energy", input := .null, expected := some .null }

/-- Second scenario case (scores 1). -/
def caseB : EvalCase := { id := "climate-policy", input := .null }

/-- Witness for C7: the two-case scenario aggregates `key_terms` to 3/4. -/
theorem runEval_aggregate_is_mean_witness :
    lookupKV (runEval "summarize-eval" "tiny" [caseA, caseB] id [keyTermsJudge]
        []).aggregates "key_terms" = some (3/4)
    ∧ recordedValues id [keyTermsJudge] [caseA, caseB] "key_terms" ≠ [] := by
  have hl : lookupKV (runEval "summarize-eval" "tiny" [caseA, caseB] id [keyTermsJudge]
      []).aggregates "key_terms" = some (3/4) := by
    simp [runEval, runCases, casesFold, runCase, judgeStep, keyTermsJudge, caseA, caseB,
      recordSet, aggPush, summarize, lookupKV]
    norm_num
  exact ⟨hl, (runEval_aggregate_is_mean "summarize-eval" "tiny" [caseA, caseB] id
      [keyTermsJudge] [] "key_terms" (3/4) hl).1⟩

/-- C10: when two judges emit the same metric name for one case, the case's
reported metric holds the later judge's value (last write wins) while both
values land on the running per-metric list, so the aggregate mean counts the
metric twice for that case. -/
theorem runEval_duplicate_metric_last_wins (nm ds m : String) (v1 v2 : Rat)
    (c : EvalCase) (run : JsValue → JsValue) (th : List (String × Rat)) :
    (runEval nm ds [c] run
        [fun _ _ _ => { metrics := [(m, v1)] }, fun _ _ _ => { metrics := [(m, v2)] }]
        th).cases
      = [{ id := c.id, metrics := [(m, v2)] }]
    ∧ (runEval nm ds [c] run
        [fun _ _ _ => { metrics := [(m, v1)] }, fun _ _ _ => { metrics := [(m, v2)] }]
        th).aggregates
      = [(m, (v1 + v2) / 2)] := by
  constructor <;>
    simp [runEval, runCases, casesFold, runCase, judgeStep, recordSet, aggPush, summarize]

/-- `keysNodup` decides `List.Nodup`. -/
theorem keysNodup_iff (l : List String) : keysNodup l = true ↔ l.Nodup := by
  induction l with
  | nil => simp [keysNodup]
  | cons k rest ih =>
      simp [keysNodup, ih, List.nodup_cons, List.contains, List.elem_iff]

/-- Serializing an object's entries keeps their keys. -/
theorem serializeFields_map_fst : ∀ f : List (String × JsValue),
    (serializeFields f).map Prod.fst = f.map Prod.fst
  | [] => rfl
  | (k, v) :: rest => by simp [serializeFields, serializeFields_map_fst rest]

/-- Serializing an object's entries keeps their number. -/
theorem serializeFields_length : ∀ f : List (String × JsValue),
    (serializeFields f).length = f.length
  | [] => rfl
  | (k, v) :: rest => by simp [serializeFields, serializeFields_length rest]

/-- Serializing an object's entries keeps membership. -/
theorem mem_serializeFields : ∀ (g : List (String × JsValue)) (k : String) (w : JsValue),
    (k, w) ∈ g → (k, stableStringify w) ∈ serializeFields g
  | (k0, v0) :: rest, k, w, h => by
      rcases List.mem_cons.mp h with h | h
      · injection h with hk hv
        subst hk; subst hv
        simp [serializeFields]
      · exact List.mem_cons_of_mem _ (mem_serializeFields rest k w h)

/-- A successful property lookup is a membership. -/
theorem jsLookup_mem : ∀ (g : List (String × JsValue)) (k : String) (w : JsValue),
    jsLookup g k = some w → (k, w) ∈ g
  | [], _, _, h => by simp [jsLookup] at h
  | (k0, v0) :: rest, k, w, h => by
      by_cases hk : k0 = k
      · subst hk
        simp [jsLookup] at h
        subst h
        exact List.mem_cons_self _ _
      · simp [jsLookup, hk] at h
        exact List.mem_cons_of_mem _ (jsLookup_mem rest k w h)

/-- Every field value of a well-formed field list is well-formed. -/
theorem nodupKeysFields_mem : ∀ (g : List (String × JsValue)),
    nodupKeysFields g = true → ∀ (k : String) (w : JsValue),
    (k, w) ∈ g → nodupKeys w = true
  | [], _, k, w, hm => by simp at hm
  | (k0, v0) :: rest, h, k, w, hm => by
      simp only [nodupKeysFields, Bool.and_eq_true] at h
      rcases List.mem_cons.mp hm with hm | hm
      · injection hm with h1 h2
        subst h2
        exact h.1
      · exact nodupKeysFields_mem rest h.2 k w hm

/-- Sorting the serialized entries by key is a permutation. -/
theorem sortFields_perm (l : List (String × String)) : (sortFields l).Perm l :=
  List.perm_insertionSort keyLE l

/-- Sorting the serialized entries by key sorts them. -/
theorem sortFields_sorted (l : List (String × String)) : (sortFields l).Sorted keyLE :=
  List.sorted_insertionSort keyLE l

/-- Two key-sorted entry lists that are permutations of each other and have
distinct keys are equal: with distinct keys, the key order pins down the
whole list. -/
theorem sorted_keyLE_perm_nodup_eq : ∀ l1 l2 : List (String × String),
    l1.Perm l2 → l1.Sorted keyLE → l2.Sorted keyLE → (l1.map Prod.fst).Nodup → l1 = l2
  | [], l2, hp, _, _, _ => hp.symm.eq_nil.symm
  | a :: t1, l2, hp, hs1, hs2, hnd => by
      cases l2 with
      | nil => exact absurd hp.eq_nil (by simp)
      | cons b t2 =>
          have hs1' := List.sorted_cons.mp hs1
          have hs2' := List.sorted_cons.mp hs2
          have ha2 : a ∈ b :: t2 := hp.subset (List.mem_cons_self a t1)
          have hb1 : b ∈ a :: t1 := hp.symm.subset (List.mem_cons_self b t2)
          have hndc : (a.1 :: t1.map Prod.fst).Nodup := by
            simpa only [List.map_cons] using hnd
          have hnd' := List.nodup_cons.mp hndc
          have hab : a = b := by
            rcases List.mem_cons.mp hb1 with hcase | hcase
            · exact hcase.symm
            · rcases List.mem_cons.mp ha2 with hcase2 | hcase2
              · exact hcase2
              · have hba : b.1 ≤ a.1 := hs2'.1 a hcase2
                have hab' : a.1 ≤ b.1 := hs1'.1 b hcase
                have hkey : a.1 = b.1 := le_antisymm hab' hba
                exfalso
                exact hnd'.1 (by rw [hkey]; exact List.mem_map_of_mem Prod.fst hcase)
          subst hab
          have ht : t1 = t2 :=
            sorted_keyLE_perm_nodup_eq t1 t2 hp.cons_inv hs1'.2 hs2'.2 hnd'.2
          rw [ht]

mutual

/-- Canonicalization: structurally equal well-formed JS values (same data up
to object key order at every nesting level) serialize to the same string,
because keys are sorted at every level. -/
theorem stableStringify_congr : ∀ a b : JsValue, nodupKeys a = true → nodupKeys b = true →
    jsEquiv a b = true → stableStringify a = stableStringify b
  | .undefined, .undefined, _, _, _ => rfl
  | .null, .null, _, _, _ => rfl
  | .bool x, .bool y, _, _, h => by
      simp only [jsEquiv, beq_iff_eq] at h
      subst h
      rfl
  | .num x, .num y, _, _, h => by
      simp only [jsEquiv, beq_iff_eq] at h
      subst h
      rfl
  | .str x, .str y, _, _, h => by
      simp only [jsEquiv, beq_iff_eq] at h
      subst h
      rfl
  | .arr xs, .arr ys, h1, h2, h => by
      simp only [jsEquiv] at h
      simp only [nodupKeys] at h1 h2
      simp only [stableStringify]
      rw [serializeList_congr xs ys h1 h2 h]
  | .obj f, .obj g, h1, h2, h => by
      simp only [jsEquiv, Bool.and_eq_true, beq_iff_eq] at h
      obtain ⟨hlen, hequiv⟩ := h
      simp only [nodupKeys, Bool.and_eq_true] at h1 h2
      obtain ⟨hk1, hf1⟩ := h1
      obtain ⟨hk2, hf2⟩ := h2
      have hsub : serializeFields f ⊆ serializeFields g :=
        serializeFields_subset f g hf1 hf2 hequiv
      have hndk1 : (f.map Prod.fst).Nodup := (keysNodup_iff _).mp hk1
      have hndk1' : ((serializeFields f).map Prod.fst).Nodup := by
        rw [serializeFields_map_fst]; exact hndk1
      have hnd1 : (serializeFields f).Nodup := hndk1'.of_map
      have hlen2 : (serializeFields g).length ≤ (serializeFields f).length := by
        rw [serializeFields_length, serializeFields_length, hlen]
      have hperm : (serializeFields f).Perm (serializeFields g) :=
        (List.subperm_of_subset hnd1 hsub).perm_of_length_le hlen2
      have hndsorted : ((sortFields (serializeFields f)).map Prod.fst).Nodup :=
        (((sortFields_perm (serializeFields f)).map Prod.fst).nodup_iff).mpr hndk1'
      have hpermsorted :
          (sortFields (serializeFields f)).Perm (sortFields (serializeFields g)) :=
        ((sortFields_perm _).trans hperm).trans (sortFields_perm _).symm
      have heq : sortFields (serializeFields f) = sortFields (serializeFields g) :=
        sorted_keyLE_perm_nodup_eq _ _ hpermsorted (sortFields_sorted _)
          (sortFields_sorted _) hndsorted
      simp only [stableStringify]
      rw [heq]
  | .undefined, .null, _, _, h => by simp [jsEquiv] at h
  | .undefined, .bool _, _, _, h => by simp [jsEquiv] at h
  | .undefined, .num _, _, _, h => by simp [jsEquiv] at h
  | .undefined, .str _, _, _, h => by simp [jsEquiv] at h
  | .undefined, .arr _, _, _, h => by simp [jsEquiv] at h
  | .undefined, .obj _, _, _, h => by simp [jsEquiv] at h
  | .null, .undefined, _, _, h => by simp [jsEquiv] at h
  | .null, .bool _, _, _, h => by simp [jsEquiv] at h
  | .null, .num _, _, _, h => by simp [jsEquiv] at h
  | .null, .str _, _, _, h => by simp [jsEquiv] at h
  | .null, .arr _, _, _, h => by simp [jsEquiv] at h
  | .null, .obj _, _, _, h => by simp [jsEquiv] at h
  | .bool _, .undefined, _, _, h => by simp [jsEquiv] at h
  | .bool _, .null, _, _, h => by simp [jsEquiv] at h
  | .bool _, .num _, _, _, h => by simp [jsEquiv] at h
  | .bool _, .str _, _, _, h => by simp [jsEquiv] at h
  | .bool _, .arr _, _, _, h => by simp [jsEquiv] at h
  | .bool _, .obj _, _, _, h => by simp [jsEquiv] at h
  | .num _, .undefined, _, _, h => by simp [jsEquiv] at h
  | .num _, .null, _, _, h => by simp [jsEquiv] at h
  | .num _, .bool _, _, _, h => by simp [jsEquiv] at h
  | .num _, .str _, _, _, h => by simp [jsEquiv] at h
  | .num _, .arr _, _, _, h => by simp [jsEquiv] at h
  | .num _, .obj _, _, _, h => by simp [jsEquiv] at h
  | .str _, .undefined, _, _, h => by simp [jsEquiv] at h
  | .str _, .null, _, _, h => by simp [jsEquiv] at h
  | .str _, .bool _, _, _, h => by simp [jsEquiv] at h
  | .str _, .num _, _, _, h => by simp [jsEquiv] at h
  | .str _, .arr _, _, _, h => by simp [jsEquiv] at h
  | .str _, .obj _, _, _, h => by simp [jsEquiv] at h
  | .arr _, .undefined, _, _, h => by simp [jsEquiv] at h
  | .arr _, .null, _, _, h => by simp [jsEquiv] at h
  | .arr _, .bool _, _, _, h => by simp [jsEquiv] at h
  | .arr _, .num _, _, _, h => by simp [jsEquiv] at h
  | .arr _, .str _, _, _, h => by simp [jsEquiv] at h
  | .arr _, .obj _, _, _, h => by simp [jsEquiv] at h
  | .obj _, .undefined, _, _, h => by simp [jsEquiv] at h
  | .obj _, .null, _, _, h => by simp [jsEquiv] at h
  | .obj _, .bool _, _, _, h => by simp [jsEquiv] at h
  | .obj _, .num _, _, _, h => by simp [jsEquiv] at h
  | .obj _, .str _, _, _, h => by simp [jsEquiv] at h
  | .obj _, .arr _, _, _, h => by simp [jsEquiv] at h

/-- Pointwise canonicalization for array elements. -/
theorem serializeList_congr : ∀ xs ys : List JsValue, nodupKeysList xs = true →
    nodupKeysList ys = true → jsEquivList xs ys = true →
    serializeList xs = serializeList ys
  | [], [], _, _, _ => rfl
  | [], _ :: _, _, _, h => by simp [jsEquivList] at h
  | _ :: _, [], _, _, h => by simp [jsEquivList] at h
  | x :: xs, y :: ys, h1, h2, h => by
      simp only [jsEquivList, Bool.and_eq_true] at h
      simp only [nodupKeysList, Bool.and_eq_true] at h1 h2
      simp only [serializeList]
      rw [stableStringify_congr x y h1.1 h2.1 h.1, serializeList_congr xs ys h1.2 h2.2 h.2]

/-- Every serialized entry of an equivalent field list appears among the
other list's serialized entries. -/
theorem serializeFields_subset : ∀ f g : List (String × JsValue),
    nodupKeysFields f = true → nodupKeysFields g = true → jsEquivFields f g = true →
    serializeFields f ⊆ serializeFields g
  | [], _, _, _, _ => by simp [serializeFields]
  | (k, v) :: rest, g, h1, h2, h => by
      simp only [jsEquivFields, Bool.and_eq_true] at h
      obtain ⟨hhead, htail⟩ := h
      simp only [nodupKeysFields, Bool.and_eq_true] at h1
      obtain ⟨hv, hrest⟩ := h1
      rcases hl : jsLookup g k with _ | w
      · rw [hl] at hhead
        simp at hhead
      · rw [hl] at hhead
        have hvw : jsEquiv v w = true := hhead
        have hmem : (k, w) ∈ g := jsLookup_mem g k w hl
        have hw : nodupKeys w = true := nodupKeysFields_mem g h2 k w hmem
        have hss : stableStringify v = stableStringify w :=
          stableStringify_congr v w hv hw hvw
        intro p hp
        simp only [serializeFields] at hp
        rcases List.mem_cons.mp hp with hp | hp
        · subst hp
          rw [hss]
          exact mem_serializeFields g k w hmem
        · exact serializeFields_subset rest g hrest h2 htail hp

end

/-- C4: two generation requests whose request objects are structurally equal
up to object key order at any nesting level (and with `temperature`
defaulted to 0 when unset, which `requestValue` applies) derive the same
cache key, because `stableStringify` sorts object keys at every level. -/
theorem cacheKey_canonical (a b : GenArgs)
    (ha : nodupKeys (requestValue a) = true) (hb : nodupKeys (requestValue b) = true)
    (heq : jsEquiv (requestValue a) (requestValue b) = true) :
    cacheKey a = cacheKey b :=
  stableStringify_congr (requestValue a) (requestValue b) ha hb heq

/-- A request whose message object lists `role` before `content` and leaves
`temperature` unset. -/
def reorderedArgsA : GenArgs :=
  { model := "gpt", messages := [.obj [("role", .str "user"), ("content", .str "hi")]] }

/-- The same logical request with the message keys in the other order and
`temperature` written explicitly as 0. -/
def reorderedArgsB : GenArgs :=
  { model := "gpt", messages := [.obj [("content", .str "hi"), ("role", .str "user")]],
    temperature := some 0 }

/-- Witness for C4: the two reorderings are structurally equal and get the
same cache key. -/
theorem cacheKey_canonical_witness :
    nodupKeys (requestValue reorderedArgsA) = true
    ∧ nodupKeys (requestValue reorderedArgsB) = true
    ∧ jsEquiv (requestValue reorderedArgsA) (requestValue reorderedArgsB) = true
    ∧ cacheKey reorderedArgsA = cacheKey reorderedArgsB := by
  have h1 : nodupKeys (requestValue reorderedArgsA) = true := by decide
  have h2 : nodupKeys (requestValue reorderedArgsB) = true := by decide
  have h3 : jsEquiv (requestValue reorderedArgsA) (requestValue reorderedArgsB) = true := by
    decide
  exact ⟨h1, h2, h3, cacheKey_canonical reorderedArgsA reorderedArgsB h1 h2 h3⟩

end Evalua
